import Mathlib

/-!
# Verification of the Pile world-storage engine

Shallow embedding of the Pile repository (github.com/oriumgames/pile):
the binary primitives of binary.go, the format package codec
(format/encode.go, format/decode.go, format/format.go), the palette
bit-packing of converter.go, the legacy pile-package section encoder of
the streaming save path, and the provider save logic of provider.go.

Modeling conventions:
* A byte stream is a List Nat (entries < 256 whenever produced by a writer).
* Go strings are modeled by their UTF-8 byte sequences (List Nat); Go string
  equality is byte equality.
* Go int32 values are modeled as Int; int32 arithmetic wraps through wrap32.
* Go int64 data words (block/biome data) and float32 fields are modeled by
  their bit patterns as naturals (< 2 ^ 64 resp. < 2 ^ 32); Go exposes these
  fields only as opaque payload, and math.Float32bits/Float32frombits is a
  bijection on patterns, so this is exact.
* Reader failures (io errors, length caps) are a single error outcome; a Go
  runtime panic (make with negative length) is a separate crash outcome.
-/

/-! ## Binary primitives (binary.go; the format package uses the same
reader/buffer semantics, per format/decode.go and the format readme) -/

/-- Two's-complement 32-bit pattern of an int32 value (binary.Write big-endian). -/
def pat32 (v : Int) : Nat := (v % (2 ^ 32 : Nat)).toNat

/-- Two's-complement 64-bit pattern of an int64 value. -/
def pat64 (v : Int) : Nat := (v % (2 ^ 64 : Nat)).toNat

/-- Result of wrapping int32 arithmetic back into the signed range. -/
def wrap32 (v : Int) : Int := (v + 2 ^ 31) % 2 ^ 32 - 2 ^ 31

/-- Big-endian bytes of a 32-bit pattern (binary.BigEndian). -/
def be32 (n : Nat) : List Nat :=
  [n / 2 ^ 24 % 256, n / 2 ^ 16 % 256, n / 2 ^ 8 % 256, n % 256]

/-- Big-endian bytes of a 64-bit pattern. -/
def be64 (n : Nat) : List Nat :=
  [n / 2 ^ 56 % 256, n / 2 ^ 48 % 256, n / 2 ^ 40 % 256, n / 2 ^ 32 % 256,
   n / 2 ^ 24 % 256, n / 2 ^ 16 % 256, n / 2 ^ 8 % 256, n % 256]

/-- buffer.WriteInt32: big-endian bytes of the argument's 32-bit pattern. -/
def writeInt32 (v : Int) : List Nat := be32 (pat32 v)

/-- buffer.WriteInt64, with the int64 word already given as its bit pattern. -/
def writeInt64 (w : Nat) : List Nat := be64 (w % 2 ^ 64)

/-- buffer.WriteFloat32, with the float given as its IEEE-754 bit pattern. -/
def writeFloat32 (p : Nat) : List Nat := be32 (p % 2 ^ 32)

/-- The zigzag mapping of encoding/binary PutVarint:
uint64(v) shifted left one, complemented when v is negative. -/
def zigzag (v : Int) : Nat := if 0 ≤ v then 2 * v.toNat else 2 * (-v).toNat - 1

/-- The PutUvarint loop with an explicit group budget: Go writes into a
MaxVarintLen64 = 10 byte buffer, which covers every uint64, so ten groups is
the whole domain (the budget is never exhausted for x < 2 ^ 64). -/
def putUvarintAux : Nat → Nat → List Nat
  | 0, x => [x]
  | f + 1, x => if x < 128 then [x] else (x % 128 + 128) :: putUvarintAux f (x / 128)

/-- Unsigned LEB128 bytes (encoding/binary PutUvarint). -/
def putUvarint (x : Nat) : List Nat := putUvarintAux 10 x

/-- buffer.WriteVarInt: signed LEB128 (zigzag then unsigned LEB128). -/
def writeVarInt (v : Int) : List Nat := putUvarint (zigzag v)

/-- buffer.WriteString: varint byte length followed by the UTF-8 bytes. -/
def writeString (s : List Nat) : List Nat := writeVarInt s.length ++ s

/-- buffer.WriteBytes: varint length followed by the raw bytes. -/
def writeBytes (d : List Nat) : List Nat := writeVarInt d.length ++ d

/-- Outcome of a decoding step: success with the unread tail, a reader or
validation error, or a Go runtime panic. -/
inductive DRes (α : Type) where
  | ok (a : α) (rest : List Nat)
  | err
  | crash
deriving DecidableEq, Repr

/-- The decoding monad: a state-passing reader over the byte stream. -/
def M (α : Type) : Type := List Nat → DRes α

instance : Monad M where
  pure a := fun l => .ok a l
  bind m f := fun l =>
    match m l with
    | .ok a r => f a r
    | .err => .err
    | .crash => .crash

/-- A failing read (io error or validation failure). -/
def errM {α : Type} : M α := fun _ => .err

/-- A Go runtime panic (make with a negative length). -/
def crashM {α : Type} : M α := fun _ => .crash

/-- reader.ReadByte (io.ReadFull of one byte). -/
def readByteM : M Nat := fun l =>
  match l with
  | [] => .err
  | b :: r => .ok b r

/-- io.ReadFull of n bytes. -/
def readExactM (n : Nat) : M (List Nat) := fun l =>
  if n ≤ l.length then .ok (l.take n) (l.drop n) else .err

/-- Big-endian value of a byte list. -/
def beVal (bs : List Nat) : Nat := bs.foldl (fun a b => a * 256 + b) 0

/-- Signed int32 value of a 4-byte pattern. -/
def toInt32 (bs : List Nat) : Int :=
  if beVal bs < 2 ^ 31 then (beVal bs : Int) else (beVal bs : Int) - 2 ^ 32

/-- reader.ReadInt32. -/
def readInt32M : M Int := do
  let bs ← readExactM 4
  pure (toInt32 bs)

/-- reader.ReadInt64, yielding the 64-bit pattern of the word. -/
def readInt64M : M Nat := do
  let bs ← readExactM 8
  pure (beVal bs)

/-- reader.ReadFloat32, yielding the IEEE-754 bit pattern. -/
def readFloat32M : M Nat := do
  let bs ← readExactM 4
  pure (beVal bs)

/-- encoding/binary ReadUvarint: i counts consumed bytes (at most ten); the
accumulated value is x with the next group going at bit offset s.  On the
overflow paths the Go shifts would wrap modulo 2 ^ 64, but every such path
discards the accumulator and returns the overflow error, so the model leaves
the shifts unwrapped. -/
def readUvarintAux (i x s : Nat) : List Nat → Option (Nat × List Nat)
  | [] => none
  | b :: r =>
    if 10 ≤ i then none
    else if b < 128 then
      if i = 9 ∧ 1 < b then none else some (x ||| (b <<< s), r)
    else readUvarintAux (i + 1) (x ||| ((b &&& 127) <<< s)) (s + 7) r

/-- readVarInt's unsigned layer as a reader action. -/
def readUvarintM : M Nat := fun l =>
  match readUvarintAux 0 0 0 l with
  | some (x, r) => .ok x r
  | none => .err

/-- The inverse zigzag mapping of encoding/binary ReadVarint. -/
def unzigzag (u : Nat) : Int :=
  if u &&& 1 = 0 then ((u / 2 : Nat) : Int) else -((u / 2 : Nat) : Int) - 1

/-- reader.ReadVarInt. -/
def readVarIntM : M Int := do
  let u ← readUvarintM
  pure (unzigzag u)

/-- reader.ReadString: varint length, rejected when negative or above 1 MiB,
then that many bytes. -/
def readStringM : M (List Nat) := do
  let len ← readVarIntM
  if len < 0 ∨ (2 ^ 20 : Int) < len then errM
  else readExactM len.toNat

/-- reader.ReadBytes: varint length, rejected when negative or above 16 MiB,
then that many bytes. -/
def readBytesM : M (List Nat) := do
  let len ← readVarIntM
  if len < 0 ∨ (2 ^ 24 : Int) < len then errM
  else readExactM len.toNat

/-! ### Round-trip lemmas for the primitives -/

theorem bind_def {α β : Type} (m : M α) (f : α → M β) (l : List Nat) :
    (m >>= f) l =
      match m l with
      | .ok a r => f a r
      | .err => .err
      | .crash => .crash := rfl

theorem pure_def {α : Type} (a : α) (l : List Nat) :
    (pure a : M α) l = .ok a l := rfl

theorem readExactM_append (xs rest : List Nat) :
    readExactM xs.length (xs ++ rest) = .ok xs rest := by
  simp [readExactM]

theorem beVal_be32 (n : Nat) (h : n < 2 ^ 32) : beVal (be32 n) = n := by
  simp only [beVal, be32, List.foldl]
  omega

theorem beVal_be64 (n : Nat) (h : n < 2 ^ 64) : beVal (be64 n) = n := by
  simp only [beVal, be64, List.foldl]
  omega

theorem be32_length (n : Nat) : (be32 n).length = 4 := rfl

theorem be64_length (n : Nat) : (be64 n).length = 8 := rfl

theorem pat32_lt (v : Int) : pat32 v < 2 ^ 32 := by
  have h : v % (2 ^ 32 : Nat) < (2 ^ 32 : Nat) := Int.emod_lt_of_pos v (by norm_num)
  simp only [pat32]
  omega

theorem readInt32M_write (v : Int) (rest : List Nat) :
    readInt32M (writeInt32 v ++ rest) = .ok (wrap32 v) rest := by
  have h4 : (be32 (pat32 v)).length = 4 := rfl
  have hlt := pat32_lt v
  have hmod : (0 : Int) ≤ v % (2 ^ 32 : Nat) := Int.emod_nonneg v (by norm_num)
  have hkey : v % (2 ^ 32 : Nat) = (pat32 v : Int) := by
    simp only [pat32]; omega
  simp only [readInt32M, writeInt32, bind_def, ← h4, readExactM_append, pure_def]
  congr 1
  have hbe := beVal_be32 (pat32 v) hlt
  simp only [toInt32, hbe, wrap32]
  have : v % ((2 : Int) ^ 32) = (pat32 v : Int) := by
    simpa using hkey
  omega

theorem readInt64M_write (w : Nat) (rest : List Nat) (h : w < 2 ^ 64) :
    readInt64M (writeInt64 w ++ rest) = .ok w rest := by
  have h8 : (be64 (w % 2 ^ 64)).length = 8 := rfl
  simp only [readInt64M, writeInt64, bind_def, ← h8, readExactM_append, pure_def]
  rw [beVal_be64 _ (Nat.mod_lt _ (by norm_num)), Nat.mod_eq_of_lt h]

theorem readFloat32M_write (p : Nat) (rest : List Nat) (h : p < 2 ^ 32) :
    readFloat32M (writeFloat32 p ++ rest) = .ok p rest := by
  have h4 : (be32 (p % 2 ^ 32)).length = 4 := rfl
  simp only [readFloat32M, writeFloat32, bind_def, ← h4, readExactM_append, pure_def]
  rw [beVal_be32 _ (Nat.mod_lt _ (by norm_num)), Nat.mod_eq_of_lt h]

/-! ### Bind helpers -/

theorem bind_ok {α β : Type} (m : M α) (f : α → M β) (l r : List Nat) (a : α)
    (h : m l = .ok a r) : (m >>= f) l = f a r := by
  rw [bind_def, h]

theorem bind_err {α β : Type} (m : M α) (f : α → M β) (l : List Nat)
    (h : m l = .err) : (m >>= f) l = .err := by
  rw [bind_def, h]

theorem bind_crash {α β : Type} (m : M α) (f : α → M β) (l : List Nat)
    (h : m l = .crash) : (m >>= f) l = .crash := by
  rw [bind_def, h]

/-! ### Bitwise arithmetic helpers -/

theorem land_two_pow_sub_one (y k : Nat) : y &&& (2 ^ k - 1) = y % 2 ^ k := by
  apply Nat.eq_of_testBit_eq
  intro i
  rw [Nat.testBit_land, Nat.testBit_mod_two_pow]
  have h1 : (0 : Nat) < 2 ^ k := Nat.two_pow_pos k
  have h2 := Nat.testBit_two_pow_sub_succ (x := 0) (n := k) h1 i
  simp only [Nat.zero_testBit, Bool.not_false, Bool.and_true] at h2
  simp only [show 2 ^ k - 1 = 2 ^ k - (0 + 1) by omega, h2]
  exact Bool.and_comm _ _

theorem two_pow_mul_lor_of_lt {a b k : Nat} (h : b < 2 ^ k) :
    (2 ^ k * a) ||| b = 2 ^ k * a + b := by
  apply Nat.eq_of_testBit_eq
  intro j
  rw [Nat.testBit_lor, Nat.testBit_mul_pow_two_add a h j, Nat.testBit_mul_pow_two]
  by_cases hj : j < k
  · have h2 : ¬ j ≥ k := by omega
    simp [hj, h2]
  · have hbj : Nat.testBit b j = false :=
      Nat.testBit_lt_two_pow
        (lt_of_lt_of_le h (Nat.pow_le_pow_right (by norm_num) (by omega)))
    have h2 : j ≥ k := by omega
    simp [hj, h2, hbj]

/-- Combining a low 7-bit group with the remaining groups shifted 7 further. -/
theorem lor_shift_combine (m q s : Nat) (hm : m < 128) :
    (m <<< s) ||| (q <<< (s + 7)) = (m + 128 * q) <<< s := by
  rw [Nat.shiftLeft_eq, Nat.shiftLeft_eq, Nat.shiftLeft_eq, Nat.lor_comm,
    mul_comm q]
  have hms : m * 2 ^ s < 2 ^ (s + 7) := by
    rw [pow_add]
    calc m * 2 ^ s < 128 * 2 ^ s :=
          (Nat.mul_lt_mul_right (Nat.two_pow_pos s)).mpr hm
      _ = 2 ^ s * 2 ^ 7 := by norm_num [mul_comm]
  rw [two_pow_mul_lor_of_lt hms, pow_add]
  ring

/-! ### Varint round-trip -/

theorem readUvarintAux_putUvarint (f : Nat) : ∀ (x i s acc : Nat) (rest : List Nat),
    x < 2 ^ (64 - 7 * i) → i ≤ 9 → 10 ≤ f + i →
    readUvarintAux i acc s (putUvarintAux f x ++ rest) = some (acc ||| (x <<< s), rest) := by
  induction f with
  | zero => intro x i s acc rest hx hi hf; omega
  | succ f ih =>
    intro x i s acc rest hx hi hf
    by_cases hsmall : x < 128
    · rw [putUvarintAux, if_pos hsmall]
      rw [List.cons_append, List.nil_append, readUvarintAux]
      rw [if_neg (by omega), if_pos hsmall]
      have hnot : ¬ (i = 9 ∧ 1 < x) := by
        rintro ⟨rfl, hgt⟩
        simp only [show 64 - 7 * 9 = 1 by norm_num, pow_one] at hx
        omega
      rw [if_neg hnot]
    · rw [putUvarintAux, if_neg hsmall, List.cons_append, readUvarintAux]
      have hi8 : i ≤ 8 := by
        by_contra hgt
        have h9 : i = 9 := by omega
        subst h9
        simp only [show 64 - 7 * 9 = 1 by norm_num, pow_one] at hx
        omega
      rw [if_neg (by omega), if_neg (by omega)]
      have hdiv : x / 128 < 2 ^ (64 - 7 * (i + 1)) := by
        have hexp : 64 - 7 * i = (64 - 7 * (i + 1)) + 7 := by omega
        rw [hexp, pow_add] at hx
        exact (Nat.div_lt_iff_lt_mul (by norm_num)).mpr (by simpa [mul_comm] using hx)
      rw [ih (x / 128) (i + 1) (s + 7) _ rest hdiv (by omega) (by omega)]
      have hb127 : (x % 128 + 128) &&& 127 = x % 128 := by
        have h127 : (127 : Nat) = 2 ^ 7 - 1 := by norm_num
        rw [h127, land_two_pow_sub_one]
        omega
      rw [hb127, Nat.lor_assoc, lor_shift_combine _ _ _ (by omega)]
      have hx128 : x % 128 + 128 * (x / 128) = x := by omega
      rw [hx128]

theorem readUvarintM_put (x : Nat) (rest : List Nat) (h : x < 2 ^ 64) :
    readUvarintM (putUvarint x ++ rest) = .ok x rest := by
  have haux := readUvarintAux_putUvarint 10 x 0 0 0 rest (by simpa using h) (by omega)
    (by omega)
  simp [readUvarintM, putUvarint, haux]

theorem readVarIntM_write (v : Int) (rest : List Nat) (h1 : -2 ^ 63 ≤ v) (h2 : v < 2 ^ 63) :
    readVarIntM (writeVarInt v ++ rest) = .ok v rest := by
  have hz : zigzag v < 2 ^ 64 := by
    unfold zigzag
    split <;> omega
  rw [readVarIntM, writeVarInt, bind_ok _ _ _ _ _ (readUvarintM_put _ _ hz), pure_def]
  congr 1
  unfold unzigzag zigzag
  rw [Nat.and_one_is_mod]
  split <;> split <;> omega

theorem readStringM_write (s rest : List Nat) (h : s.length ≤ 2 ^ 20) :
    readStringM (writeString s ++ rest) = .ok s rest := by
  rw [readStringM, writeString, List.append_assoc,
    bind_ok _ _ _ _ _ (readVarIntM_write _ _ (by omega) (by omega))]
  rw [if_neg (by omega)]
  have hn : ((s.length : Int)).toNat = s.length := by omega
  rw [hn, readExactM_append]

theorem readBytesM_write (d rest : List Nat) (h : d.length ≤ 2 ^ 24) :
    readBytesM (writeBytes d ++ rest) = .ok d rest := by
  rw [readBytesM, writeBytes, List.append_assoc,
    bind_ok _ _ _ _ _ (readVarIntM_write _ _ (by omega) (by omega))]
  rw [if_neg (by omega)]
  have hn : ((d.length : Int)).toNat = d.length := by omega
  rw [hn, readExactM_append]

theorem readByteM_cons (b : Nat) (rest : List Nat) :
    readByteM (b :: rest) = .ok b rest := rfl

/-! ## google/uuid v1.6.0 (external dependency pinned by go.mod):
UUID.String and Parse, as used by the format codec for entities. -/

/-- Lowercase hex digit (encoding/hex alphabet). -/
def hexChar (d : Nat) : Nat := if d < 10 then 48 + d else 87 + d

/-- Two lowercase hex digits of a byte. -/
def hexPair (b : Nat) : List Nat := [hexChar (b / 16 % 16), hexChar (b % 16)]

/-- UUID.String: the RFC-4122 textual form
xxxxxxxx-xxxx-xxxx-xxxx-xxxxxxxxxxxx of the sixteen bytes. -/
def uuidStringGo (u : List Nat) : List Nat :=
  hexPair (u.getD 0 0) ++ hexPair (u.getD 1 0) ++ hexPair (u.getD 2 0) ++
  hexPair (u.getD 3 0) ++ [45] ++
  hexPair (u.getD 4 0) ++ hexPair (u.getD 5 0) ++ [45] ++
  hexPair (u.getD 6 0) ++ hexPair (u.getD 7 0) ++ [45] ++
  hexPair (u.getD 8 0) ++ hexPair (u.getD 9 0) ++ [45] ++
  hexPair (u.getD 10 0) ++ hexPair (u.getD 11 0) ++ hexPair (u.getD 12 0) ++
  hexPair (u.getD 13 0) ++ hexPair (u.getD 14 0) ++ hexPair (u.getD 15 0)

/-- The xtob hex table of google/uuid: digit value of one ASCII hex char. -/
def hexVal (c : Nat) : Option Nat :=
  if 48 ≤ c ∧ c ≤ 57 then some (c - 48)
  else if 97 ≤ c ∧ c ≤ 102 then some (c - 87)
  else if 65 ≤ c ∧ c ≤ 70 then some (c - 55)
  else none

/-- google/uuid xtob: byte value of two hex chars. -/
def xtob (c1 c2 : Nat) : Option Nat :=
  match hexVal c1, hexVal c2 with
  | some h, some l => some (h * 16 + l)
  | _, _ => none

/-- The all-zero UUID (the zero value var uuid UUID of Parse). -/
def zeroUUID : List Nat := List.replicate 16 0

/-- The destination/offset pairs of the hex groups in the 36-char form. -/
def uuidGroupPos : List (Nat × Nat) :=
  [(0, 0), (1, 2), (2, 4), (3, 6), (4, 9), (5, 11), (6, 14), (7, 16),
   (8, 19), (9, 21), (10, 24), (11, 26), (12, 28), (13, 30), (14, 32), (15, 34)]

/-- The group-filling loop of Parse: writes each successfully decoded byte
into the UUID and stops with failure on the first invalid group, leaving
earlier groups written (the partially filled value is returned). -/
def fillGroups (s : List Nat) : List (Nat × Nat) → List Nat → List Nat × Bool
  | [], u => (u, true)
  | (i, x) :: t, u =>
    match xtob (s.getD x 0) (s.getD (x + 1) 0) with
    | some v => fillGroups s t (u.set i v)
    | none => (u, false)

/-- Parse of a 36-char body: dash positions checked, then sixteen hex groups. -/
def parse36 (s : List Nat) : List Nat × Bool :=
  if s.getD 8 0 = 45 ∧ s.getD 13 0 = 45 ∧ s.getD 18 0 = 45 ∧ s.getD 23 0 = 45 then
    fillGroups s uuidGroupPos zeroUUID
  else (zeroUUID, false)

/-- Parse of the 32-char dashless form. -/
def parse32 (s : List Nat) : List Nat × Bool :=
  fillGroups s ((List.range 16).map (fun i => (i, 2 * i))) zeroUUID

/-- ASCII case folding (strings.EqualFold restricted to ASCII, which is all
the urn:uuid: pattern needs). -/
def toLowerAscii (c : Nat) : Nat := if 65 ≤ c ∧ c ≤ 90 then c + 32 else c

/-- EqualFold of the first nine bytes against urn:uuid:. -/
def isUrnPrefix (s : List Nat) : Bool :=
  decide ((s.take 9).map toLowerAscii = [117, 114, 110, 58, 117, 117, 105, 100, 58])

/-- google/uuid Parse: the returned UUID value (partially filled when a late
hex group is invalid) and whether parsing succeeded.  The decoder in
format/decode.go discards the error and keeps the value. -/
def uuidParseGo (s : List Nat) : List Nat × Bool :=
  if s.length = 36 then parse36 s
  else if s.length = 36 + 9 then
    if isUrnPrefix s then parse36 (s.drop 9) else (zeroUUID, false)
  else if s.length = 36 + 2 then parse36 (s.drop 1)
  else if s.length = 32 then parse32 s
  else (zeroUUID, false)

/-! ## The format package data model (format/format.go) -/

namespace Fmt

/-- UTF-8 bytes of minecraft:air. -/
def mcAir : List Nat := [109, 105, 110, 101, 99, 114, 97, 102, 116, 58, 97, 105, 114]

/-- UTF-8 bytes of minecraft:plains. -/
def mcPlains : List Nat :=
  [109, 105, 110, 101, 99, 114, 97, 102, 116, 58, 112, 108, 97, 105, 110, 115]

/-- format.Section: two paletted stores; data words as int64 bit patterns. -/
structure Section where
  blockPalette : List (List Nat)
  blockData : List Nat
  biomePalette : List (List Nat)
  biomeData : List Nat
deriving DecidableEq, Repr

/-- Section.IsEmpty: block palette empty, or a single minecraft:air entry. -/
def Section.IsEmpty (s : Section) : Bool :=
  decide (s.blockPalette.length = 0 ∨
    (s.blockPalette.length = 1 ∧ s.blockPalette.getD 0 [] = mcAir))

/-- format.Entity: uuid bytes, identifier, float32 bit patterns for
position/rotation/velocity, opaque NBT payload. -/
structure Entity where
  uuid : List Nat
  id : List Nat
  posX : Nat
  posY : Nat
  posZ : Nat
  yaw : Nat
  pitch : Nat
  velX : Nat
  velY : Nat
  velZ : Nat
  data : List Nat
deriving DecidableEq, Repr

/-- format.BlockEntity. -/
structure BlockEntity where
  packedXZ : Nat
  y : Int
  id : List Nat
  data : List Nat
deriving DecidableEq, Repr

/-- format.ScheduledTick. -/
structure ScheduledTick where
  packedXZ : Nat
  y : Int
  block : List Nat
  tick : Int
deriving DecidableEq, Repr

/-- format.Chunk.  The Heightmaps field is written by EncodeChunk and
documented in the format readme (the struct listing in the format.go
snapshot omits it). -/
structure Chunk where
  x : Int
  z : Int
  sections : List (Option Section)
  blockEntities : List BlockEntity
  entities : List Entity
  scheduledTicks : List ScheduledTick
  heightmaps : List Nat
  userData : List Nat
deriving DecidableEq, Repr

/-- format.World.  The chunk map is modeled as an insertion-ordered
association list from the packed chunk key; the unexported streaming /
chunkIndex fields are not used by any modeled operation and are omitted. -/
structure World where
  version : Int
  minSection : Int
  maxSection : Int
  userData : List Nat
  chunks : List (Nat × Chunk)
  dirtyChunks : List (Nat × Bool)
  readOnly : Bool
deriving DecidableEq, Repr

/-- chunkKey: int64(x) shifted left 32, or zero-extended uint32(z),
as a 64-bit pattern. -/
def chunkKey (x z : Int) : Nat := (pat32 x <<< 32 ||| pat32 z) % 2 ^ 64

/-- Map insertion (Go m[k] = v): replace an existing key or add the entry. -/
def upsert {α : Type} (k : Nat) (v : α) : List (Nat × α) → List (Nat × α)
  | [] => [(k, v)]
  | (k2, v2) :: t => if k2 = k then (k, v) :: t else (k2, v2) :: upsert k v t

/-- Map lookup. -/
def lookupKey {α : Type} (k : Nat) : List (Nat × α) → Option α
  | [] => none
  | (k2, v2) :: t => if k2 = k then some v2 else lookupKey k t

/-- World.Chunk: the chunk at the given coordinates, if present. -/
def World.Chunk (w : World) (x z : Int) : Option Chunk :=
  lookupKey (chunkKey x z) w.chunks

/-- World.setChunk (internal): installs the chunk and marks its key dirty;
bypasses only the read-only check. -/
def World.setChunk (w : World) (c : Fmt.Chunk) : World :=
  { w with
    chunks := upsert (chunkKey c.x c.z) c w.chunks
    dirtyChunks := upsert (chunkKey c.x c.z) true w.dirtyChunks }

/-- World.SetChunk: silently ignored when the world is read-only. -/
def World.SetChunk (w : World) (c : Fmt.Chunk) : World :=
  if w.readOnly then w else w.setChunk c

/-- World.Chunks: the chunks in map order. -/
def World.Chunks (w : World) : List Fmt.Chunk := w.chunks.map Prod.snd

/-- World.DirtyChunks: the chunks whose keys are in the dirty set. -/
def World.DirtyChunks (w : World) : List Fmt.Chunk :=
  w.dirtyChunks.filterMap (fun p => lookupKey p.1 w.chunks)

/-- World.ClearDirty. -/
def World.ClearDirty (w : World) : World := { w with dirtyChunks := [] }

/-- World.IsDirty: the dirty set is non-empty. -/
def World.IsDirty (w : World) : Bool := decide (0 < w.dirtyChunks.length)

/-- World.ChunkCount. -/
def World.ChunkCount (w : World) : Nat := w.chunks.length

/-- World.SetReadOnly. -/
def World.SetReadOnly (w : World) (ro : Bool) : World := { w with readOnly := ro }

/-- World.IsReadOnly. -/
def World.IsReadOnly (w : World) : Bool := w.readOnly

/-! ## The format package encoder (format/encode.go) -/

/-- encodeSection: block palette, block data, biome palette, biome data —
four length-prefixed fields and nothing else. -/
def encodeSection (s : Section) : List Nat :=
  writeVarInt s.blockPalette.length ++ (s.blockPalette.map writeString).flatten ++
  writeVarInt s.blockData.length ++ (s.blockData.map writeInt64).flatten ++
  writeVarInt s.biomePalette.length ++ (s.biomePalette.map writeString).flatten ++
  writeVarInt s.biomeData.length ++ (s.biomeData.map writeInt64).flatten

/-- encodeEmptySection: the canonical all-air section. -/
def encodeEmptySection : List Nat :=
  writeVarInt 1 ++ writeString mcAir ++ writeVarInt 0 ++
  writeVarInt 1 ++ writeString mcPlains ++ writeVarInt 0

/-- The per-slot section bytes of EncodeChunk: a present non-nil entry is
encoded with encodeSection, while a nil entry or an index past the array
gets encodeEmptySection. -/
def sectionSlotBytes (c : Chunk) (i : Nat) : List Nat :=
  match c.sections.getD i none with
  | some s => encodeSection s
  | none => encodeEmptySection

/-- encodeBlockEntity. -/
def encodeBlockEntity (be : BlockEntity) : List Nat :=
  [be.packedXZ % 256] ++ writeInt32 be.y ++ writeString be.id ++ writeBytes be.data

/-- The per-entity bytes written inline by EncodeChunk: identifier, textual
UUID, eight float32 fields (position, yaw, pitch, velocity), NBT payload. -/
def encodeEntityFields (e : Entity) : List Nat :=
  writeString e.id ++ writeString (uuidStringGo e.uuid) ++
  writeFloat32 e.posX ++ writeFloat32 e.posY ++ writeFloat32 e.posZ ++
  writeFloat32 e.yaw ++ writeFloat32 e.pitch ++
  writeFloat32 e.velX ++ writeFloat32 e.velY ++ writeFloat32 e.velZ ++
  writeBytes e.data

/-- The per-tick bytes written inline by EncodeChunk. -/
def tickBytes (t : ScheduledTick) : List Nat :=
  [t.packedXZ % 256] ++ writeInt32 t.y ++ writeString t.block ++ writeVarInt t.tick

/-- EncodeChunk: coordinates, max-min sections (absent slots padded with the
canonical empty section), block entities, entities, scheduled ticks,
heightmaps, user data. -/
def EncodeChunk (c : Chunk) (minSection maxSection : Int) : List Nat :=
  writeInt32 c.x ++ writeInt32 c.z ++
  ((List.range (wrap32 (maxSection - minSection)).toNat).map (sectionSlotBytes c)).flatten ++
  writeVarInt c.blockEntities.length ++ (c.blockEntities.map encodeBlockEntity).flatten ++
  writeVarInt c.entities.length ++ (c.entities.map encodeEntityFields).flatten ++
  writeVarInt c.scheduledTicks.length ++ (c.scheduledTicks.map tickBytes).flatten ++
  writeBytes c.heightmaps ++ writeBytes c.userData

/-- EncodeWorld: section range, user data, chunk count, chunks in map order. -/
def EncodeWorld (w : World) : List Nat :=
  writeInt32 w.minSection ++ writeInt32 w.maxSection ++ writeBytes w.userData ++
  writeVarInt w.Chunks.length ++
  (w.Chunks.map (fun c => EncodeChunk c w.minSection w.maxSection)).flatten

/-! ## The format package decoder (format/decode.go) -/

/-- A counted decoding loop (for i := range count). -/
def mrep {α : Type} (n : Nat) (act : M α) : M (List α) :=
  match n with
  | 0 => pure []
  | k + 1 => do
    let a ← act
    let as ← mrep k act
    pure (a :: as)

/-- decodeSection.  The Go code calls make with each size before checking it,
so a negative palette or data size is a runtime panic (crash), not an error. -/
def decodeSection : M Section := do
  let ps ← readVarIntM
  if ps < 0 then crashM
  else do
    let bp ← mrep ps.toNat readStringM
    let bds ← readVarIntM
    if bds < 0 then crashM
    else do
      let bd ← mrep bds.toNat readInt64M
      let mps ← readVarIntM
      if mps < 0 then crashM
      else do
        let mp ← mrep mps.toNat readStringM
        let mds ← readVarIntM
        if mds < 0 then crashM
        else do
          let md ← mrep mds.toNat readInt64M
          pure ⟨bp, bd, mp, md⟩

/-- decodeBlockEntity. -/
def decodeBlockEntity : M BlockEntity := do
  let pxz ← readByteM
  let y ← readInt32M
  let id ← readStringM
  let data ← readBytesM
  pure ⟨pxz, y, id, data⟩

/-- The entity-reading body of decodeChunk: uuid.Parse's error is discarded
and its (possibly partial) value kept. -/
def decodeEntity : M Entity := do
  let id ← readStringM
  let uidStr ← readStringM
  let posX ← readFloat32M
  let posY ← readFloat32M
  let posZ ← readFloat32M
  let yaw ← readFloat32M
  let pitch ← readFloat32M
  let velX ← readFloat32M
  let velY ← readFloat32M
  let velZ ← readFloat32M
  let data ← readBytesM
  pure ⟨(uuidParseGo uidStr).1, id, posX, posY, posZ, yaw, pitch, velX, velY, velZ, data⟩

/-- The scheduled-tick-reading body of decodeChunk. -/
def decodeTick : M ScheduledTick := do
  let pxz ← readByteM
  let y ← readInt32M
  let block ← readStringM
  let t ← readVarIntM
  pure ⟨pxz, y, block, t⟩

/-- decodeChunk.  sectionCount is the wrapped int32 difference; a negative
value reaches make([]*Section, sectionCount) and panics (crash).  Empty
sections are stored as absent.  After the ticks the decoder reads a single
bytes field into UserData — the heightmaps blob is never read and the
heightmaps field stays at its zero value. -/
def decodeChunk (minSection maxSection : Int) : M Chunk := do
  let x ← readInt32M
  let z ← readInt32M
  if wrap32 (maxSection - minSection) < 0 then crashM
  else do
    let secs ← mrep (wrap32 (maxSection - minSection)).toNat decodeSection
    let bec ← readVarIntM
    if bec < 0 then errM
    else do
      let bes ← mrep bec.toNat decodeBlockEntity
      let ec ← readVarIntM
      if ec < 0 then errM
      else do
        let ents ← mrep ec.toNat decodeEntity
        let stc ← readVarIntM
        if stc < 0 then errM
        else do
          let ticks ← mrep stc.toNat decodeTick
          let ud ← readBytesM
          pure
            ⟨x, z, secs.map (fun s => if s.IsEmpty then none else some s),
              bes, ents, ticks, [], ud⟩

/-- DecodeWorld: section range, user data, validated chunk count, then the
chunks installed through the internal setChunk. -/
def DecodeWorld : M World := do
  let minS ← readInt32M
  let maxS ← readInt32M
  let ud ← readBytesM
  let cc ← readVarIntM
  if cc < 0 ∨ 1000000 < cc then errM
  else do
    let cs ← mrep cc.toNat (decodeChunk minS maxS)
    pure (cs.foldl World.setChunk ⟨1, minS, maxS, ud, [], [], false⟩)

end Fmt

/-! ## Palette bit packing (converter.go, package pile) -/

/-- math/bits Len (the number of bits of n) with an explicit budget: 64
iterations cover every uint, which is the whole Go domain. -/
def bitsLenAux : Nat → Nat → Nat
  | 0, _ => 0
  | f + 1, n => if n = 0 then 0 else bitsLenAux f (n / 2) + 1

/-- math/bits Len on a uint. -/
def bitsLen (n : Nat) : Nat := bitsLenAux 64 n

/-- calculateBitsPerBlock: bits.Len of paletteSize - 1, zero for a trivial
palette. -/
def calculateBitsPerBlock (paletteSize : Nat) : Nat :=
  if paletteSize ≤ 1 then 0 else bitsLen (paletteSize - 1)

/-- One iteration of the encodeIndices loop:
result[i / valuesPerLong] |= int64(idx) << bitOffset, on int64 words given as
bit patterns (the shift wraps modulo 2 ^ 64 like the Go int64 shift). -/
def packStep (vpl b : Nat) (acc : List Nat) (p : Nat × Nat) : List Nat :=
  acc.set (p.1 / vpl) (acc.getD (p.1 / vpl) 0 ||| p.2 <<< (p.1 % vpl * b) % 2 ^ 64)

/-- encodeIndices: nil for zero width or no indices, else the packed words. -/
def encodeIndices (indices : List Nat) (bitsPerBlock : Nat) : List Nat :=
  if bitsPerBlock = 0 ∨ indices.length = 0 then []
  else
    indices.enum.foldl (packStep (64 / bitsPerBlock) bitsPerBlock)
      (List.replicate ((indices.length + 64 / bitsPerBlock - 1) / (64 / bitsPerBlock)) 0)

/-- Arithmetic right shift of an int64 given as its 64-bit pattern
(the Go >> on a signed word): sign bits fill in from the top. -/
def int64Shr (w k : Nat) : Nat :=
  if w < 2 ^ 63 then w >>> k else w >>> k ||| (2 ^ 64 - 2 ^ (64 - k))

/-- decodeIndices: count zeros for zero width or empty data; otherwise each
index is extracted from its word.  The Go loop breaks once the word index
runs past the data array, leaving the remaining entries zero; since the word
index is monotone in i, that break is the same as yielding zero for every
index past the array. -/
def decodeIndices (data : List Nat) (bitsPerBlock count : Nat) : List Nat :=
  if bitsPerBlock = 0 ∨ data.length = 0 then List.replicate count 0
  else
    (List.range count).map (fun i =>
      if i / (64 / bitsPerBlock) < data.length then
        int64Shr (data.getD (i / (64 / bitsPerBlock)) 0) (i % (64 / bitsPerBlock) * bitsPerBlock)
          &&& (2 ^ bitsPerBlock - 1)
      else 0)

/-! ## The legacy pile-package section encoder (unnamed/part_001), used by the
provider's save paths (writeWorldWithCompression and writeWorldStreaming in
provider.go call the pile-package encodeWorld / encodeChunk / encodeSection) -/

namespace Pile

/-- The pile-package Section: the four paletted fields plus the light arrays
(converter.go fills BlockLight / SkyLight from the Dragonfly sub-chunks). -/
structure Section where
  blockPalette : List (List Nat)
  blockData : List Nat
  biomePalette : List (List Nat)
  biomeData : List Nat
  blockLight : List Nat
  skyLight : List Nat
deriving DecidableEq, Repr

/-- writeLightData: flag byte 0 for no data, 1 for all zeros, 2 for all 0xFF,
else 3 followed by the raw bytes. -/
def writeLightData (light : List Nat) : List Nat :=
  if light.length = 0 then [0]
  else if light.all (fun b => b == 0) then [1]
  else if light.all (fun b => b == 255) then [2]
  else 3 :: light

/-- The pile-package encodeSection: the same four paletted fields as the
format package, followed by two light-data blocks. -/
def encodeSection (s : Section) : List Nat :=
  writeVarInt s.blockPalette.length ++ (s.blockPalette.map writeString).flatten ++
  writeVarInt s.blockData.length ++ (s.blockData.map writeInt64).flatten ++
  writeVarInt s.biomePalette.length ++ (s.biomePalette.map writeString).flatten ++
  writeVarInt s.biomeData.length ++ (s.biomeData.map writeInt64).flatten ++
  writeLightData s.blockLight ++ writeLightData s.skyLight

/-- The pile-package encodeEmptySection: the canonical empty section plus two
zero light flags. -/
def encodeEmptySection : List Nat :=
  writeVarInt 1 ++ writeString Fmt.mcAir ++ writeVarInt 0 ++
  writeVarInt 1 ++ writeString Fmt.mcPlains ++ writeVarInt 0 ++ [0] ++ [0]

/-- The per-entity bytes written by the pile-package encodeChunk
(unnamed/part_001, lines 54-62): the identifier string, the uuid in textual
form, and the length-prefixed NBT payload.  No position, rotation or
velocity fields are written — the encoder's comment defers them to the NBT
payload.  The entity value carries the same fields as the format package's
Entity; this encoder simply never reads the eight float32 fields. -/
def encodeEntityFields (e : Fmt.Entity) : List Nat :=
  writeString e.id ++ writeString (uuidStringGo e.uuid) ++ writeBytes e.data

/-! ### The provider save path (provider.go) -/

/-- The per-dimension state saveInternal touches: the dirty-chunk key set and
the world user data. -/
structure PWorld where
  dirtyChunks : List Nat
  userData : List Nat
deriving DecidableEq, Repr

/-- The provider state saveInternal touches: the three dimension worlds and
the provider-wide dirty flag. -/
structure Provider where
  overworld : Option PWorld
  nether : Option PWorld
  theEnd : Option PWorld
  dirty : Bool
deriving DecidableEq, Repr

/-- World.ClearDirty on the provider-side world. -/
def clearDirtyW (w : PWorld) : PWorld := { w with dirtyChunks := [] }

/-- saveInternal (provider.go).  encSettings is the settings blob produced by
encodeSettings (an external NBT encoder; opaque bytes here); failOw, failNe
and failEnd say whether the file write for that dimension fails (os.Create,
the write call, or Close).  Before any write the settings are encoded into
the overworld user data; then each present dimension is written in order,
its dirty set cleared on success, with an early error return on failure; the
provider-wide dirty flag is cleared only after all three succeed.  Returns
the provider state after the call and whether an error was returned. -/
def saveInternal (encSettings : List Nat) (failOw failNe failEnd : Bool)
    (p : Provider) : Provider × Bool :=
  let p1 :=
    match p.overworld with
    | some w => { p with overworld := some { w with userData := encSettings } }
    | none => p
  match p1.overworld, failOw with
  | some _, true => (p1, true)
  | ow, _ =>
    let p2 :=
      match ow with
      | some w => { p1 with overworld := some (clearDirtyW w) }
      | none => p1
    match p2.nether, failNe with
    | some _, true => (p2, true)
    | ne, _ =>
      let p3 :=
        match ne with
        | some w => { p2 with nether := some (clearDirtyW w) }
        | none => p2
      match p3.theEnd, failEnd with
      | some _, true => (p3, true)
      | en, _ =>
        let p4 :=
          match en with
          | some w => { p3 with theEnd := some (clearDirtyW w) }
          | none => p3
        ({ p4 with dirty := false }, false)

end Pile

/-! ## Claim inputs -/

/-- A world with one chunk at (0,0), one absent section slot, empty
heightmaps, and chunk user data [7]. -/
def c1World : Fmt.World :=
  { version := 1, minSection := 0, maxSection := 1, userData := [],
    chunks := [(Fmt.chunkKey 0 0,
      { x := 0, z := 0, sections := [none], blockEntities := [], entities := [],
        scheduledTicks := [], heightmaps := [], userData := [7] })],
    dirtyChunks := [], readOnly := false }

/-- What DecodeWorld actually returns on the encoding of c1World: the chunk
user data is gone (the decoder read the heightmaps blob in its place) and
the trailing user-data bytes [2, 7] are left unconsumed. -/
def c1Decoded : Fmt.World :=
  { version := 1, minSection := 0, maxSection := 1, userData := [],
    chunks := [(Fmt.chunkKey 0 0,
      { x := 0, z := 0, sections := [none], blockEntities := [], entities := [],
        scheduledTicks := [], heightmaps := [], userData := [] })],
    dirtyChunks := [(Fmt.chunkKey 0 0, true)], readOnly := false }

/-- The encoding of a world with min = max = 0 and one empty chunk at (0,0). -/
def c2Bytes : List Nat :=
  [0, 0, 0, 0, 0, 0, 0, 0, 0, 2, 0, 0, 0, 0, 0, 0, 0, 0, 0, 0, 0, 0]

/-- The world DecodeWorld returns on c2Bytes: the decoded chunk is marked
dirty because DecodeWorld installs chunks through setChunk. -/
def c2DecodedChunk : Fmt.Chunk :=
  { x := 0, z := 0, sections := [], blockEntities := [], entities := [],
    scheduledTicks := [], heightmaps := [], userData := [] }

/-- The world c2Bytes decodes to. -/
def c2Decoded : Fmt.World :=
  { version := 1, minSection := 0, maxSection := 0, userData := [],
    chunks := [(0, c2DecodedChunk)],
    dirtyChunks := [(0, true)], readOnly := false }

/-- An air-only section that is present in the sections array: block palette
empty, all other fields empty. -/
def c4AirSection : Fmt.Section := ⟨[], [], [], []⟩

/-- A chunk holding c4AirSection in slot 0. -/
def c4Chunk : Fmt.Chunk :=
  { x := 0, z := 0, sections := [some c4AirSection], blockEntities := [], entities := [],
    scheduledTicks := [], heightmaps := [], userData := [] }

/-- A chunk whose sections array is empty (every slot absent). -/
def c4WitnessChunk : Fmt.Chunk :=
  { x := 0, z := 0, sections := [], blockEntities := [], entities := [],
    scheduledTicks := [], heightmaps := [], userData := [] }

/-- The canonical empty-section byte sequence: palette size 1 with
minecraft:air, no block words, palette size 1 with minecraft:plains, no
biome words (signed-varint lengths). -/
def canonicalEmptyBytes : List Nat :=
  [2, 26, 109, 105, 110, 101, 99, 114, 97, 102, 116, 58, 97, 105, 114, 0,
   2, 32, 109, 105, 110, 101, 99, 114, 97, 102, 116, 58, 112, 108, 97, 105, 110, 115, 0]

/-- An encoding whose header says min_section = 1, max_section = 0 and whose
chunk count is 1, followed by the chunk coordinate bytes. -/
def c9Bytes : List Nat :=
  [0, 0, 0, 1, 0, 0, 0, 0, 0, 2, 0, 0, 0, 0, 0, 0, 0, 0]

/-- The 36-char uuid text aa000000-0000-0000-0000-00000000000z: correct
length and dashes, valid first hex group, invalid last character. -/
def c10UuidStr : List Nat :=
  [97, 97, 48, 48, 48, 48, 48, 48, 45, 48, 48, 48, 48, 45, 48, 48, 48, 48, 45,
   48, 48, 48, 48, 45, 48, 48, 48, 48, 48, 48, 48, 48, 48, 48, 48, 122]

/-- A chunk stream (for min = max = 0): coordinates, no sections, no block
entities, one entity with empty id, the invalid uuid text, zero floats and
empty data, no ticks, empty trailing bytes field. -/
def c10Bytes : List Nat :=
  [0, 0, 0, 0, 0, 0, 0, 0] ++ [0] ++ [2] ++ [0] ++ (72 :: c10UuidStr) ++
  List.replicate 32 0 ++ [0] ++ [0] ++ [0]

/-- The UUID value uuid.Parse returns for c10UuidStr: the first group was
written before the failure, so byte 0 is 0xaa. -/
def c10PartialUuid : List Nat := 170 :: List.replicate 15 0

/-- The entity Fmt.decodeChunk produces from c10Bytes. -/
def c10Entity : Fmt.Entity :=
  { uuid := c10PartialUuid, id := [], posX := 0, posY := 0, posZ := 0,
    yaw := 0, pitch := 0, velX := 0, velY := 0, velZ := 0, data := [] }

/-- The chunk Fmt.decodeChunk produces from c10Bytes. -/
def c10Chunk : Fmt.Chunk :=
  { x := 0, z := 0, sections := [], blockEntities := [],
    entities := [c10Entity],
    scheduledTicks := [], heightmaps := [], userData := [] }

/-- A provider with dirty overworld and nether and no end world. -/
def c3Provider : Pile.Provider :=
  { overworld := some { dirtyChunks := [5], userData := [] },
    nether := some { dirtyChunks := [6], userData := [] },
    theEnd := none, dirty := true }

/-! ## Claim theorems -/

/-- C1: decoding the encoding of c1World succeeds but loses the chunk's user
data: the decoder reads the heightmaps blob into UserData, never reads the
user-data blob, and leaves its bytes [2, 7] unconsumed; the decoded world is
not structurally equal to the original. -/
theorem c1_roundtrip_loses_chunk_userdata :
    Fmt.DecodeWorld (Fmt.EncodeWorld c1World) = .ok c1Decoded [2, 7]
    ∧ (c1World.Chunk 0 0).map Fmt.Chunk.userData = some [7]
    ∧ (c1Decoded.Chunk 0 0).map Fmt.Chunk.userData = some []
    ∧ c1Decoded ≠ c1World := by decide

/-- C2: immediately after DecodeWorld succeeds on c2Bytes, the decoded world
reports IsDirty true and a non-empty DirtyChunks set, because DecodeWorld
installs chunks through setChunk, which marks every chunk dirty. -/
theorem c2_decoded_world_is_dirty :
    Fmt.DecodeWorld c2Bytes = .ok c2Decoded []
    ∧ c2Decoded.IsDirty = true
    ∧ c2Decoded.DirtyChunks ≠ [] := by decide

/-- C3 counterexample: a save in which the overworld write succeeds and the
nether write fails returns an error, yet the overworld's dirty-chunk set has
been cleared and its user data overwritten with the encoded settings — the
in-memory state is not as it was before the call. -/
theorem c3_counterexample :
    (Pile.saveInternal [9] false true false c3Provider).2 = true
    ∧ c3Provider.overworld = some { dirtyChunks := [5], userData := [] }
    ∧ (Pile.saveInternal [9] false true false c3Provider).1.overworld
        = some { dirtyChunks := [], userData := [9] } := by decide

/-- C3 amended: when saveInternal returns an error, the provider-wide dirty
flag keeps its prior value (it is cleared only after all three dimensions
save successfully); dimensions already written do have their dirty sets
cleared, and the overworld user data is rewritten before any write. -/
theorem c3_failed_save_keeps_provider_dirty_flag (enc : List Nat)
    (f1 f2 f3 : Bool) (p : Pile.Provider)
    (h : (Pile.saveInternal enc f1 f2 f3 p).2 = true) :
    (Pile.saveInternal enc f1 f2 f3 p).1.dirty = p.dirty := by
  rcases p with ⟨ow, ne, en, d⟩
  cases ow <;> cases ne <;> cases en <;> cases f1 <;> cases f2 <;> cases f3 <;>
    simp_all [Pile.saveInternal, Pile.clearDirtyW]

/-- C3 witness: the amended theorem at the concrete failing save above. -/
theorem c3_witness :
    (Pile.saveInternal [9] false true false c3Provider).2 = true
    ∧ (Pile.saveInternal [9] false true false c3Provider).1.dirty = c3Provider.dirty :=
  ⟨by decide, c3_failed_save_keeps_provider_dirty_flag [9] false true false c3Provider
    (by decide)⟩

/-- C4 counterexample: a present air-only section (empty block palette) is
encoded field-by-field as four zero counts, not as the canonical
empty-section byte sequence. -/
theorem c4_counterexample :
    c4AirSection.IsEmpty = true
    ∧ Fmt.sectionSlotBytes c4Chunk 0 = [0, 0, 0, 0]
    ∧ Fmt.sectionSlotBytes c4Chunk 0 ≠ canonicalEmptyBytes := by decide

/-- C4 amended: only an absent chunk slot — nil in the sections array or an
index past its end — is emitted as the exact canonical empty-section byte
sequence; a present section, air-only or not, goes through encodeSection. -/
theorem c4_absent_slot_encodes_canonical (c : Fmt.Chunk) (i : Nat)
    (h : c.sections.getD i none = none) :
    Fmt.sectionSlotBytes c i = canonicalEmptyBytes := by
  unfold Fmt.sectionSlotBytes
  rw [h]
  decide

/-- C4 witness: the amended theorem at slot 0 of a chunk with no sections. -/
theorem c4_witness :
    c4WitnessChunk.sections.getD 0 none = none
    ∧ Fmt.sectionSlotBytes c4WitnessChunk 0 = canonicalEmptyBytes :=
  ⟨rfl, c4_absent_slot_encodes_canonical c4WitnessChunk 0 rfl⟩

/-- C7: on a read-only world, SetChunk is a silent no-op: chunk lookup at
every coordinate pair, the chunk count, and the dirty flag are unchanged. -/
theorem c7_readonly_setchunk_noop (w : Fmt.World) (c : Fmt.Chunk) (x z : Int)
    (h : w.readOnly = true) :
    (w.SetChunk c).Chunk x z = w.Chunk x z
    ∧ (w.SetChunk c).ChunkCount = w.ChunkCount
    ∧ (w.SetChunk c).IsDirty = w.IsDirty := by
  unfold Fmt.World.SetChunk
  rw [h]
  exact ⟨rfl, rfl, rfl⟩

/-- A read-only world with one chunk, for the C7 witness. -/
def c7World : Fmt.World :=
  { version := 1, minSection := 0, maxSection := 1, userData := [],
    chunks := [(Fmt.chunkKey 0 0,
      { x := 0, z := 0, sections := [none], blockEntities := [], entities := [],
        scheduledTicks := [], heightmaps := [], userData := [] })],
    dirtyChunks := [], readOnly := true }

/-- A chunk at fresh coordinates, for the C7 witness. -/
def c7NewChunk : Fmt.Chunk :=
  { x := 3, z := 4, sections := [none], blockEntities := [], entities := [],
    scheduledTicks := [], heightmaps := [], userData := [] }

/-- C7 witness: the theorem at a concrete read-only world. -/
theorem c7_witness :
    c7World.readOnly = true
    ∧ ((c7World.SetChunk c7NewChunk).Chunk 3 4 = c7World.Chunk 3 4
      ∧ (c7World.SetChunk c7NewChunk).ChunkCount = c7World.ChunkCount
      ∧ (c7World.SetChunk c7NewChunk).IsDirty = c7World.IsDirty) :=
  ⟨rfl, c7_readonly_setchunk_noop c7World c7NewChunk 3 4 rfl⟩

/-- C8: the pile-package section encoder (the provider's save path) writes
the four paletted fields and then two light-data blocks: with empty light
arrays it appends the flag bytes 0, 0 after the biome data, where the format
package's encodeSection (and the format documentation) end the section. -/
theorem c8_pile_encoder_stores_light (s : Pile.Section)
    (h1 : s.blockLight = []) (h2 : s.skyLight = []) :
    Pile.encodeSection s =
      Fmt.encodeSection ⟨s.blockPalette, s.blockData, s.biomePalette, s.biomeData⟩
        ++ [0, 0] := by
  unfold Pile.encodeSection Fmt.encodeSection
  rw [h1, h2]
  simp [Pile.writeLightData]

/-- A stone section with empty light arrays, for the C8 witness. -/
def c8Section : Pile.Section :=
  { blockPalette := [[115, 116, 111, 110, 101]], blockData := [], biomePalette := [],
    biomeData := [], blockLight := [], skyLight := [] }

/-- C8 witness: the theorem at a concrete section. -/
theorem c8_witness :
    Pile.encodeSection c8Section =
      Fmt.encodeSection ⟨c8Section.blockPalette, c8Section.blockData,
        c8Section.biomePalette, c8Section.biomeData⟩ ++ [0, 0] :=
  c8_pile_encoder_stores_light c8Section rfl rfl

/-- C9 counterexample: a stream whose min_section is 1, max_section is 0 and
chunk count is 1 drives DecodeWorld into make with a negative section count:
a runtime panic, not an error return. -/
theorem c9_counterexample : Fmt.DecodeWorld c9Bytes = .crash := by decide

/-- C10 counterexample: decoding a chunk whose entity uuid text is invalid
(bad final hex character) succeeds without error, but the stored UUID is the
partially parsed value 0xaa000000-... — not the all-zero UUID. -/
theorem c10_counterexample :
    (uuidParseGo c10UuidStr).2 = false
    ∧ Fmt.decodeChunk 0 0 c10Bytes = .ok c10Chunk []
    ∧ c10Chunk.entities.map Fmt.Entity.uuid = [c10PartialUuid]
    ∧ c10PartialUuid ≠ zeroUUID := by decide

/-- An int32 value in range is unchanged by wrapping. -/
theorem wrap32_eq_self (v : Int) (h1 : -2 ^ 31 ≤ v) (h2 : v < 2 ^ 31) : wrap32 v = v := by
  unfold wrap32
  omega

/-- C9 amended: DecodeWorld performs no section-range validation.  For any
header whose (in-range) min_section exceeds its max_section, a chunk count of
1 followed by eight coordinate bytes reaches make([]*Section, sectionCount)
with a negative length: a runtime panic, not an error return. -/
theorem c9_negative_section_count_panics (minS maxS x z : Int) (rest : List Nat)
    (hmin1 : -2 ^ 31 ≤ minS) (hmin2 : minS < 2 ^ 31)
    (hmax1 : -2 ^ 31 ≤ maxS) (hmax2 : maxS < 2 ^ 31)
    (hneg : wrap32 (maxS - minS) < 0) :
    Fmt.DecodeWorld (writeInt32 minS ++ (writeInt32 maxS ++ ([0] ++ ([2] ++
      (writeInt32 x ++ (writeInt32 z ++ rest)))))) = .crash := by
  have h1 := readInt32M_write minS
    (writeInt32 maxS ++ ([0] ++ ([2] ++ (writeInt32 x ++ (writeInt32 z ++ rest)))))
  rw [wrap32_eq_self minS hmin1 hmin2] at h1
  have h2 := readInt32M_write maxS ([0] ++ ([2] ++ (writeInt32 x ++ (writeInt32 z ++ rest))))
  rw [wrap32_eq_self maxS hmax1 hmax2] at h2
  have h3 : readBytesM (([0] : List Nat) ++ ([2] ++ (writeInt32 x ++ (writeInt32 z ++ rest))))
      = .ok [] ([2] ++ (writeInt32 x ++ (writeInt32 z ++ rest))) :=
    readBytesM_write [] _ (by norm_num)
  have h4 : readVarIntM (([2] : List Nat) ++ (writeInt32 x ++ (writeInt32 z ++ rest)))
      = .ok 1 (writeInt32 x ++ (writeInt32 z ++ rest)) :=
    readVarIntM_write 1 _ (by norm_num) (by norm_num)
  have hchunk : Fmt.decodeChunk minS maxS (writeInt32 x ++ (writeInt32 z ++ rest)) = .crash := by
    unfold Fmt.decodeChunk
    rw [bind_ok _ _ _ _ _ (readInt32M_write x (writeInt32 z ++ rest)),
      bind_ok _ _ _ _ _ (readInt32M_write z rest), if_pos hneg]
    rfl
  have hm : Fmt.mrep 1 (Fmt.decodeChunk minS maxS) (writeInt32 x ++ (writeInt32 z ++ rest))
      = .crash := by
    have he : Fmt.mrep 1 (Fmt.decodeChunk minS maxS) =
        (Fmt.decodeChunk minS maxS >>= fun a =>
          Fmt.mrep 0 (Fmt.decodeChunk minS maxS) >>= fun as => pure (a :: as)) := rfl
    rw [he, bind_crash _ _ _ hchunk]
  unfold Fmt.DecodeWorld
  rw [bind_ok _ _ _ _ _ h1, bind_ok _ _ _ _ _ h2, bind_ok _ _ _ _ _ h3,
    bind_ok _ _ _ _ _ h4, if_neg (by norm_num)]
  simp only [Int.toNat_one]
  rw [bind_crash _ _ _ hm]

/-- C9 witness: the amended theorem at min_section 2, max_section 1. -/
theorem c9_witness :
    Fmt.DecodeWorld (writeInt32 2 ++ (writeInt32 1 ++ ([0] ++ ([2] ++
      (writeInt32 0 ++ (writeInt32 0 ++ ([] : List Nat))))))) = .crash :=
  c9_negative_section_count_panics 2 1 0 0 [] (by norm_num) (by norm_num) (by norm_num)
    (by norm_num) (by decide)

/-- The textual form of a UUID is always 36 bytes. -/
theorem uuidStringGo_length (u : List Nat) : (uuidStringGo u).length = 36 := by
  simp [uuidStringGo, hexPair]

/-- Decoding one entity record: the identifier string, the uuid string, the
eight float32 fields, and the length-prefixed payload are read back in that
order; the uuid field of the result is whatever value uuid.Parse produced,
valid or not. -/
theorem decodeEntity_spec (id ustr data : List Nat)
    (p0 p1 p2 p3 p4 p5 p6 p7 : Nat) (rest : List Nat)
    (hid : id.length ≤ 2 ^ 20) (hu : ustr.length ≤ 2 ^ 20) (hd : data.length ≤ 2 ^ 24)
    (h0 : p0 < 2 ^ 32) (h1 : p1 < 2 ^ 32) (h2 : p2 < 2 ^ 32) (h3 : p3 < 2 ^ 32)
    (h4 : p4 < 2 ^ 32) (h5 : p5 < 2 ^ 32) (h6 : p6 < 2 ^ 32) (h7 : p7 < 2 ^ 32) :
    Fmt.decodeEntity (writeString id ++ (writeString ustr ++ (writeFloat32 p0 ++
      (writeFloat32 p1 ++ (writeFloat32 p2 ++ (writeFloat32 p3 ++ (writeFloat32 p4 ++
      (writeFloat32 p5 ++ (writeFloat32 p6 ++ (writeFloat32 p7 ++
      (writeBytes data ++ rest))))))))))) =
      .ok ⟨(uuidParseGo ustr).1, id, p0, p1, p2, p3, p4, p5, p6, p7, data⟩ rest := by
  unfold Fmt.decodeEntity
  rw [bind_ok _ _ _ _ _ (readStringM_write id _ hid),
    bind_ok _ _ _ _ _ (readStringM_write ustr _ hu),
    bind_ok _ _ _ _ _ (readFloat32M_write p0 _ h0),
    bind_ok _ _ _ _ _ (readFloat32M_write p1 _ h1),
    bind_ok _ _ _ _ _ (readFloat32M_write p2 _ h2),
    bind_ok _ _ _ _ _ (readFloat32M_write p3 _ h3),
    bind_ok _ _ _ _ _ (readFloat32M_write p4 _ h4),
    bind_ok _ _ _ _ _ (readFloat32M_write p5 _ h5),
    bind_ok _ _ _ _ _ (readFloat32M_write p6 _ h6),
    bind_ok _ _ _ _ _ (readFloat32M_write p7 _ h7),
    bind_ok _ _ _ _ _ (readBytesM_write data _ hd), pure_def]

/-- C6 amended: in the format-package codec, an entity's serialized form is
the id string, the uuid in RFC-4122 textual form, eight float32 values
(position, yaw, pitch, velocity), and the length-prefixed data bytes, and
decoding that record restores position, rotation and velocity from the
float32 fields (and the id and data verbatim).  The claim does not hold for
the pile-package encodeChunk it also cites — the provider's own save path —
which writes no float32 fields at all (see the C6 counterexample). -/
theorem c6_entity_wire_format (e : Fmt.Entity) (rest : List Nat)
    (hid : e.id.length ≤ 2 ^ 20) (hdata : e.data.length ≤ 2 ^ 24)
    (hp0 : e.posX < 2 ^ 32) (hp1 : e.posY < 2 ^ 32) (hp2 : e.posZ < 2 ^ 32)
    (hp3 : e.yaw < 2 ^ 32) (hp4 : e.pitch < 2 ^ 32)
    (hp5 : e.velX < 2 ^ 32) (hp6 : e.velY < 2 ^ 32) (hp7 : e.velZ < 2 ^ 32) :
    Fmt.encodeEntityFields e =
      writeString e.id ++ (writeString (uuidStringGo e.uuid) ++ (writeFloat32 e.posX ++
      (writeFloat32 e.posY ++ (writeFloat32 e.posZ ++ (writeFloat32 e.yaw ++
      (writeFloat32 e.pitch ++ (writeFloat32 e.velX ++ (writeFloat32 e.velY ++
      (writeFloat32 e.velZ ++ writeBytes e.data)))))))))
    ∧ Fmt.decodeEntity (Fmt.encodeEntityFields e ++ rest) =
        .ok { uuid := (uuidParseGo (uuidStringGo e.uuid)).1, id := e.id,
              posX := e.posX, posY := e.posY, posZ := e.posZ, yaw := e.yaw,
              pitch := e.pitch, velX := e.velX, velY := e.velY, velZ := e.velZ,
              data := e.data } rest := by
  have hu : (uuidStringGo e.uuid).length ≤ 2 ^ 20 := by
    rw [uuidStringGo_length]
    norm_num
  constructor
  · simp [Fmt.encodeEntityFields, List.append_assoc]
  · have hspec := decodeEntity_spec e.id (uuidStringGo e.uuid) e.data
      e.posX e.posY e.posZ e.yaw e.pitch e.velX e.velY e.velZ rest
      hid hu hdata hp0 hp1 hp2 hp3 hp4 hp5 hp6 hp7
    simpa [Fmt.encodeEntityFields, List.append_assoc] using hspec

/-- A concrete entity for the C6 witness. -/
def c6Entity : Fmt.Entity :=
  { uuid := [1, 2, 3, 4, 5, 6, 7, 8, 9, 10, 11, 12, 13, 14, 15, 16],
    id := [122, 111, 109, 98, 105, 101], posX := 3, posY := 4, posZ := 5,
    yaw := 6, pitch := 7, velX := 8, velY := 9, velZ := 10, data := [1, 2] }

/-- C6 witness: the theorem at a concrete entity. -/
theorem c6_witness :
    Fmt.encodeEntityFields c6Entity =
      writeString c6Entity.id ++ (writeString (uuidStringGo c6Entity.uuid) ++
      (writeFloat32 c6Entity.posX ++ (writeFloat32 c6Entity.posY ++
      (writeFloat32 c6Entity.posZ ++ (writeFloat32 c6Entity.yaw ++
      (writeFloat32 c6Entity.pitch ++ (writeFloat32 c6Entity.velX ++
      (writeFloat32 c6Entity.velY ++ (writeFloat32 c6Entity.velZ ++
      writeBytes c6Entity.data)))))))))
    ∧ Fmt.decodeEntity (Fmt.encodeEntityFields c6Entity ++ []) =
        .ok { uuid := (uuidParseGo (uuidStringGo c6Entity.uuid)).1, id := c6Entity.id,
              posX := c6Entity.posX, posY := c6Entity.posY, posZ := c6Entity.posZ,
              yaw := c6Entity.yaw, pitch := c6Entity.pitch, velX := c6Entity.velX,
              velY := c6Entity.velY, velZ := c6Entity.velZ,
              data := c6Entity.data } [] :=
  c6_entity_wire_format c6Entity [] (by decide) (by decide) (by decide) (by decide)
    (by decide) (by decide) (by decide) (by decide) (by decide) (by decide)

/-- C6 counterexample: the pile-package encodeChunk — the provider's live
save path, cited by the claim — serializes c6Entity as the id string, the
uuid text and the length-prefixed data only: its bytes are not the claimed
record with the eight float32 fields, and the format-package entity decoder
fails on them instead of restoring position, rotation and velocity. -/
theorem c6_counterexample :
    Pile.encodeEntityFields c6Entity =
      writeString c6Entity.id ++ (writeString (uuidStringGo c6Entity.uuid) ++
        writeBytes c6Entity.data)
    ∧ Pile.encodeEntityFields c6Entity ≠
      writeString c6Entity.id ++ (writeString (uuidStringGo c6Entity.uuid) ++
      (writeFloat32 c6Entity.posX ++ (writeFloat32 c6Entity.posY ++
      (writeFloat32 c6Entity.posZ ++ (writeFloat32 c6Entity.yaw ++
      (writeFloat32 c6Entity.pitch ++ (writeFloat32 c6Entity.velX ++
      (writeFloat32 c6Entity.velY ++ (writeFloat32 c6Entity.velZ ++
      writeBytes c6Entity.data)))))))))
    ∧ Fmt.decodeEntity (Pile.encodeEntityFields c6Entity) = .err := by
  decide

/-- C10 amended: when the entity uuid string is invalid, decoding still does
not return an error — the chunk's entity record decodes fine — and the
entity carries the value uuid.Parse produced: the groups written before the
failure (all-zero whenever the string's length is not one of the accepted
forms, but possibly partially filled for a well-shaped string with a late
invalid group). -/
theorem c10_invalid_uuid_is_not_an_error (id ustr data : List Nat)
    (p0 p1 p2 p3 p4 p5 p6 p7 : Nat) (rest : List Nat)
    (hid : id.length ≤ 2 ^ 20) (hu : ustr.length ≤ 2 ^ 20) (hd : data.length ≤ 2 ^ 24)
    (h0 : p0 < 2 ^ 32) (h1 : p1 < 2 ^ 32) (h2 : p2 < 2 ^ 32) (h3 : p3 < 2 ^ 32)
    (h4 : p4 < 2 ^ 32) (h5 : p5 < 2 ^ 32) (h6 : p6 < 2 ^ 32) (h7 : p7 < 2 ^ 32)
    (_hinvalid : (uuidParseGo ustr).2 = false) :
    Fmt.decodeEntity (writeString id ++ (writeString ustr ++ (writeFloat32 p0 ++
      (writeFloat32 p1 ++ (writeFloat32 p2 ++ (writeFloat32 p3 ++ (writeFloat32 p4 ++
      (writeFloat32 p5 ++ (writeFloat32 p6 ++ (writeFloat32 p7 ++
      (writeBytes data ++ rest))))))))))) =
      .ok ⟨(uuidParseGo ustr).1, id, p0, p1, p2, p3, p4, p5, p6, p7, data⟩ rest
    ∧ (ustr.length ≠ 36 → ustr.length ≠ 45 → ustr.length ≠ 38 → ustr.length ≠ 32 →
        (uuidParseGo ustr).1 = zeroUUID) := by
  refine ⟨decodeEntity_spec id ustr data p0 p1 p2 p3 p4 p5 p6 p7 rest
    hid hu hd h0 h1 h2 h3 h4 h5 h6 h7, ?_⟩
  intro hl1 hl2 hl3 hl4
  unfold uuidParseGo
  rw [if_neg hl1, if_neg (by omega), if_neg (by omega), if_neg hl4]

/-- C10 witness: the amended theorem at a one-character uuid string. -/
theorem c10_witness :
    ((uuidParseGo [97]).2 = false)
    ∧ Fmt.decodeEntity (writeString [] ++ (writeString [97] ++ (writeFloat32 0 ++
        (writeFloat32 0 ++ (writeFloat32 0 ++ (writeFloat32 0 ++ (writeFloat32 0 ++
        (writeFloat32 0 ++ (writeFloat32 0 ++ (writeFloat32 0 ++
        (writeBytes [] ++ []))))))))))) =
        .ok ⟨(uuidParseGo [97]).1, [], 0, 0, 0, 0, 0, 0, 0, 0, []⟩ []
    ∧ ([97] : List Nat).length ≠ 36 :=
  ⟨by decide,
    (c10_invalid_uuid_is_not_an_error [] [97] [] 0 0 0 0 0 0 0 0 []
      (by decide) (by decide) (by decide) (by decide) (by decide) (by decide)
      (by decide) (by decide) (by decide) (by decide) (by decide) (by decide)).1,
    by decide⟩

/-! ### C5 machinery: pack/unpack round-trip for the palette codec -/

theorem bitsLenAux_lt (f : Nat) : ∀ n, n < 2 ^ f → n < 2 ^ bitsLenAux f n := by
  induction f with
  | zero =>
    intro n h
    simpa [bitsLenAux] using h
  | succ f ih =>
    intro n h
    rw [bitsLenAux]
    split
    · simp_all
    · have hdiv : n / 2 < 2 ^ f := by
        have hp : (2 : Nat) ^ (f + 1) = 2 ^ f * 2 := pow_succ 2 f
        omega
      have hb := ih (n / 2) hdiv
      rw [pow_succ]
      omega

theorem bitsLenAux_le (f : Nat) : ∀ n k, n < 2 ^ k → bitsLenAux f n ≤ k := by
  induction f with
  | zero =>
    intro n k _
    simp [bitsLenAux]
  | succ f ih =>
    intro n k h
    rw [bitsLenAux]
    split
    · omega
    · have hn : n ≠ 0 := by assumption
      have hk : 1 ≤ k := by
        by_contra hc
        have hk0 : k = 0 := by omega
        subst hk0
        simp at h
        omega
      have hdiv : n / 2 < 2 ^ (k - 1) := by
        have hp : (2 : Nat) ^ k = 2 ^ (k - 1) * 2 := by
          rw [← pow_succ]
          congr 1
          omega
        omega
      have := ih (n / 2) (k - 1) hdiv
      omega

/-- The value a word accumulates: the first entry in the low b bits, the rest
shifted b higher. -/
def wordSum (b : Nat) : List Nat → Nat
  | [] => 0
  | a :: t => a + 2 ^ b * wordSum b t

theorem wordSum_lt (b : Nat) : ∀ g : List Nat, (∀ a ∈ g, a < 2 ^ b) →
    wordSum b g < 2 ^ (g.length * b) := by
  intro g
  induction g with
  | nil =>
    intro
    simp [wordSum]
  | cons a t ih =>
    intro h
    have ha : a < 2 ^ b := h a (by simp)
    have ht := ih (fun x hx => h x (by simp [hx]))
    have hsplit : 2 ^ ((a :: t).length * b) = 2 ^ b * 2 ^ (t.length * b) := by
      rw [List.length_cons, ← pow_add]
      congr 1
      ring
    rw [wordSum, hsplit]
    calc a + 2 ^ b * wordSum b t < 2 ^ b + 2 ^ b * wordSum b t := by omega
      _ = 2 ^ b * (1 + wordSum b t) := by ring
      _ ≤ 2 ^ b * 2 ^ (t.length * b) := by
          exact Nat.mul_le_mul_left _ (by omega)

theorem wordSum_getD (b : Nat) : ∀ (g : List Nat) (r : Nat),
    (∀ a ∈ g, a < 2 ^ b) → r < g.length →
    wordSum b g / 2 ^ (r * b) % 2 ^ b = g.getD r 0 := by
  intro g
  induction g with
  | nil =>
    intro r _ hr
    simp at hr
  | cons a t ih =>
    intro r h hr
    have ha : a < 2 ^ b := h a (by simp)
    match r with
    | 0 =>
      rw [wordSum]
      simp only [zero_mul, pow_zero, Nat.div_one, List.getD_cons_zero]
      rw [Nat.add_mul_mod_self_left, Nat.mod_eq_of_lt ha]
    | r + 1 =>
      have hstep : (a + 2 ^ b * wordSum b t) / 2 ^ ((r + 1) * b)
          = wordSum b t / 2 ^ (r * b) := by
        rw [show (r + 1) * b = b + r * b by ring, pow_add, ← Nat.div_div_eq_div_mul]
        congr 1
        rw [Nat.add_mul_div_left _ _ (Nat.two_pow_pos b), Nat.div_eq_of_lt ha, zero_add]
      rw [wordSum, hstep, List.getD_cons_succ]
      exact ih r (fun x hx => h x (by simp [hx])) (by simpa using hr)


/-- Extraction through the Go arithmetic shift: as long as the b extracted
bits lie inside the word, the sign-extension bits are masked away and the
result is the plain div-mod extraction. -/
theorem int64Shr_and_mask (w k b : Nat) (hw : w < 2 ^ 64) (hkb : k + b ≤ 64) :
    int64Shr w k &&& (2 ^ b - 1) = w / 2 ^ k % 2 ^ b := by
  unfold int64Shr
  split
  · rw [land_two_pow_sub_one, Nat.shiftRight_eq_div_pow]
  · rw [land_two_pow_sub_one, Nat.shiftRight_eq_div_pow]
    have h1 : 2 ^ (64 - k) * 2 ^ k = 2 ^ 64 := by
      rw [← pow_add]
      congr 1
      omega
    have h2 : 2 ^ (64 - k) * (2 ^ k - 1) + 2 ^ (64 - k) = 2 ^ (64 - k) * 2 ^ k := by
      rw [← Nat.mul_succ]
      congr 1
      have : (1 : Nat) ≤ 2 ^ k := Nat.one_le_two_pow
      omega
    have hE : 2 ^ 64 - 2 ^ (64 - k) = 2 ^ (64 - k) * (2 ^ k - 1) := by omega
    have hlow : w / 2 ^ k < 2 ^ (64 - k) := by
      rw [Nat.div_lt_iff_lt_mul (Nat.two_pow_pos k)]
      omega
    have hor : (w / 2 ^ k) ||| (2 ^ (64 - k) * (2 ^ k - 1))
        = 2 ^ (64 - k) * (2 ^ k - 1) + w / 2 ^ k := by
      rw [Nat.lor_comm]
      exact two_pow_mul_lor_of_lt hlow
    rw [hE, hor]
    have hfac : 2 ^ (64 - k) * (2 ^ k - 1) = 2 ^ b * (2 ^ (64 - k - b) * (2 ^ k - 1)) := by
      rw [← mul_assoc, ← pow_add]
      congr 2
      omega
    rw [hfac, add_comm, Nat.add_mul_mod_self_left]

theorem enumFrom_append_eq {α : Type} (l1 : List α) : ∀ (l2 : List α) (n : Nat),
    (l1 ++ l2).enumFrom n = l1.enumFrom n ++ l2.enumFrom (n + l1.length) := by
  induction l1 with
  | nil =>
    intro l2 n
    simp
  | cons a t ih =>
    intro l2 n
    simp only [List.cons_append, List.enumFrom_cons, ih l2 (n + 1)]
    simp only [List.length_cons]
    congr 3
    omega

/-- Folding the packing step over the entries of one word: each entry lands
in word zero at its own offset, and the word accumulates the word sum. -/
theorem foldl_packStep_head (b vpl : Nat) (hvb : vpl * b ≤ 64) :
    ∀ (l : List Nat) (s w : Nat) (acc : List Nat),
    (∀ a ∈ l, a < 2 ^ b) → s + l.length ≤ vpl → w < 2 ^ (s * b) →
    List.foldl (packStep vpl b) (w :: acc) (List.enumFrom s l)
      = (w + 2 ^ (s * b) * wordSum b l) :: acc := by
  intro l
  induction l with
  | nil =>
    intro s w acc _ _ _
    simp [wordSum]
  | cons a t ih =>
    intro s w acc h hlen hw
    have ha : a < 2 ^ b := h a (by simp)
    have hs : s < vpl := by
      simp only [List.length_cons] at hlen
      omega
    have hmul : a * 2 ^ (s * b) < 2 ^ ((s + 1) * b) := by
      have hstep : (2 : Nat) ^ ((s + 1) * b) = 2 ^ b * 2 ^ (s * b) := by
        rw [← pow_add]
        congr 1
        ring
      rw [hstep]
      exact (Nat.mul_lt_mul_right (Nat.two_pow_pos (s * b))).mpr ha
    have hsucc : 2 ^ ((s + 1) * b) ≤ 2 ^ 64 := by
      apply Nat.pow_le_pow_right (by norm_num)
      calc (s + 1) * b ≤ vpl * b := Nat.mul_le_mul_right b (by omega)
        _ ≤ 64 := hvb
    have hstep : packStep vpl b (w :: acc) (s, a) = (w + a * 2 ^ (s * b)) :: acc := by
      unfold packStep
      simp only [Nat.div_eq_of_lt hs, Nat.mod_eq_of_lt hs, List.getD_cons_zero,
        List.set_cons_zero]
      congr 1
      rw [Nat.shiftLeft_eq, Nat.mod_eq_of_lt (by omega)]
      rw [Nat.lor_comm, mul_comm a, two_pow_mul_lor_of_lt hw]
      ring
    have hw2 : w + a * 2 ^ (s * b) < 2 ^ ((s + 1) * b) := by
      have h1 : (2 : Nat) ^ ((s + 1) * b) = 2 ^ b * 2 ^ (s * b) := by
        rw [← pow_add]
        congr 1
        ring
      rw [h1]
      calc w + a * 2 ^ (s * b) < 2 ^ (s * b) + a * 2 ^ (s * b) := by omega
        _ = (a + 1) * 2 ^ (s * b) := by ring
        _ ≤ 2 ^ b * 2 ^ (s * b) :=
            Nat.mul_le_mul_right _ (by omega)
    rw [List.enumFrom_cons, List.foldl_cons, hstep,
      ih (s + 1) (w + a * 2 ^ (s * b)) acc (fun x hx => h x (by simp [hx]))
        (by simp only [List.length_cons] at hlen; omega) hw2]
    congr 1
    rw [wordSum, show (s + 1) * b = s * b + b by ring, pow_add]
    ring

/-- Folding the packing step over entries belonging to later words leaves the
head word alone. -/
theorem foldl_packStep_shift (b vpl : Nat) (hvpl : 1 ≤ vpl) :
    ∀ (l : List Nat) (k w : Nat) (acc : List Nat),
    List.foldl (packStep vpl b) (w :: acc) (List.enumFrom (vpl + k) l)
      = w :: List.foldl (packStep vpl b) acc (List.enumFrom k l) := by
  intro l
  induction l with
  | nil =>
    intro k w acc
    simp
  | cons a t ih =>
    intro k w acc
    have hstep : packStep vpl b (w :: acc) (vpl + k, a) = w :: packStep vpl b acc (k, a) := by
      unfold packStep
      have hdiv : (vpl + k) / vpl = k / vpl + 1 := by
        rw [add_comm, Nat.add_div_right _ (by omega)]
      have hmod : (vpl + k) % vpl = k % vpl := by
        rw [add_comm, Nat.add_mod_right]
      simp only [hdiv, hmod, List.getD_cons_succ, List.set_cons_succ]
    rw [List.enumFrom_cons, List.enumFrom_cons, List.foldl_cons, List.foldl_cons, hstep,
      show vpl + k + 1 = vpl + (k + 1) by ring, ih (k + 1) w (packStep vpl b acc (k, a))]

/-- The words the packing loop is meant to produce: one word sum per chunk of
vpl consecutive indices. -/
def buildWords (b vpl : Nat) : Nat → List Nat → List Nat
  | 0, _ => []
  | lc + 1, l => wordSum b (l.take vpl) :: buildWords b vpl lc (l.drop vpl)

theorem buildWords_nil (b vpl : Nat) : ∀ lc, buildWords b vpl lc [] = List.replicate lc 0 := by
  intro lc
  induction lc with
  | zero => rfl
  | succ lc ih =>
    rw [buildWords, List.replicate_succ]
    simp [wordSum, ih]

theorem buildWords_length (b vpl : Nat) : ∀ lc l, (buildWords b vpl lc l).length = lc := by
  intro lc
  induction lc with
  | zero => intro l; rfl
  | succ lc ih =>
    intro l
    rw [buildWords, List.length_cons, ih]

theorem buildWords_getD (b vpl : Nat) : ∀ (lc : Nat) (l : List Nat) (j : Nat), j < lc →
    (buildWords b vpl lc l).getD j 0 = wordSum b ((l.drop (j * vpl)).take vpl) := by
  intro lc
  induction lc with
  | zero =>
    intro l j hj
    omega
  | succ lc ih =>
    intro l j hj
    match j with
    | 0 =>
      rw [buildWords]
      simp
    | j + 1 =>
      rw [buildWords, List.getD_cons_succ, ih (l.drop vpl) j (by omega), List.drop_drop]
      congr 2
      ring_nf

/-- The packing fold computes exactly the chunked word sums. -/
theorem foldl_packStep_words (b vpl : Nat) (hvpl : 1 ≤ vpl) (hvb : vpl * b ≤ 64) :
    ∀ (lc : Nat) (l : List Nat), (∀ a ∈ l, a < 2 ^ b) → l.length ≤ lc * vpl →
    List.foldl (packStep vpl b) (List.replicate lc 0) l.enum = buildWords b vpl lc l := by
  intro lc
  induction lc with
  | zero =>
    intro l h hlen
    have hnil : l = [] := List.eq_nil_of_length_eq_zero (by omega)
    subst hnil
    rfl
  | succ lc ih =>
    intro l h hlen
    have hl : l = l.take vpl ++ l.drop vpl := (List.take_append_drop vpl l).symm
    rw [List.enum]
    conv_lhs => rw [hl]
    rw [enumFrom_append_eq, List.foldl_append, List.replicate_succ]
    have htake : ∀ a ∈ l.take vpl, a < 2 ^ b := fun a ha => h a (List.mem_of_mem_take ha)
    have hlentake : (0 : Nat) + (l.take vpl).length ≤ vpl := by
      rw [List.length_take]
      omega
    rw [foldl_packStep_head b vpl hvb (l.take vpl) 0 0 (List.replicate lc 0) htake hlentake
      (by simp)]
    simp only [zero_add, Nat.zero_mul, pow_zero, one_mul]
    by_cases hcase : vpl ≤ l.length
    · have htl : (l.take vpl).length = vpl := by
        rw [List.length_take]
        omega
      rw [htl]
      have hshift := foldl_packStep_shift b vpl hvpl (l.drop vpl) 0
        (wordSum b (l.take vpl)) (List.replicate lc 0)
      simp only [Nat.add_zero] at hshift
      rw [hshift]
      rw [show List.enumFrom 0 (l.drop vpl) = (l.drop vpl).enum from rfl]
      rw [ih (l.drop vpl) (fun a ha => h a (List.mem_of_mem_drop ha))
        (by
          rw [List.length_drop]
          have hx : (lc + 1) * vpl = lc * vpl + vpl := by ring
          omega)]
      rw [buildWords]
    · have hdrop : l.drop vpl = [] := List.drop_eq_nil_of_le (by omega)
      rw [hdrop]
      simp only [List.enumFrom_nil, List.foldl_nil]
      rw [buildWords, hdrop, buildWords_nil]

/-- The core round-trip: at any positive width of at most 63 bits, unpacking
the packed words at the same width and original count returns the indices. -/
theorem decodeIndices_encodeIndices (b : Nat) (indices : List Nat)
    (hb1 : 1 ≤ b) (hb63 : b ≤ 63) (hlt : ∀ x ∈ indices, x < 2 ^ b) :
    decodeIndices (encodeIndices indices b) b indices.length = indices := by
  by_cases hnil : indices.length = 0
  · have h0 : indices = [] := List.eq_nil_of_length_eq_zero hnil
    subst h0
    simp [encodeIndices, decodeIndices]
  · have hb0 : ¬ (b = 0) := by omega
    have hvpl1 : 1 ≤ 64 / b := by
      rw [Nat.le_div_iff_mul_le (by omega)]
      omega
    have hvb : 64 / b * b ≤ 64 := Nat.div_mul_le_self 64 b
    have hnlc : indices.length ≤ ((indices.length + 64 / b - 1) / (64 / b)) * (64 / b) := by
      have hdm := Nat.div_add_mod (indices.length + 64 / b - 1) (64 / b)
      have hmlt : (indices.length + 64 / b - 1) % (64 / b) < 64 / b :=
        Nat.mod_lt _ (by omega)
      have hcomm : ((indices.length + 64 / b - 1) / (64 / b)) * (64 / b)
          = (64 / b) * ((indices.length + 64 / b - 1) / (64 / b)) := Nat.mul_comm _ _
      omega
    have henc : encodeIndices indices b
        = buildWords b (64 / b) ((indices.length + 64 / b - 1) / (64 / b)) indices := by
      rw [encodeIndices, if_neg (by push_neg; exact ⟨hb0, hnil⟩)]
      exact foldl_packStep_words b (64 / b) hvpl1 hvb _ indices hlt hnlc
    have hlen : (encodeIndices indices b).length
        = (indices.length + 64 / b - 1) / (64 / b) := by
      rw [henc, buildWords_length]
    have hlc1 : 1 ≤ (indices.length + 64 / b - 1) / (64 / b) := by
      rw [Nat.le_div_iff_mul_le (by omega)]
      omega
    rw [decodeIndices, if_neg (by push_neg; exact ⟨hb0, by omega⟩)]
    apply List.ext_getElem
    · simp
    · intro i h1 h2
      simp only [List.getElem_map, List.getElem_range]
      have hjlt : i / (64 / b) < (indices.length + 64 / b - 1) / (64 / b) := by
        rw [Nat.div_lt_iff_lt_mul (by omega)]
        omega
      rw [if_pos (by rw [hlen]; exact hjlt)]
      rw [henc, buildWords_getD b (64 / b) _ indices _ hjlt]
      have hglen : ((indices.drop (i / (64 / b) * (64 / b))).take (64 / b)).length
          = min (64 / b) (indices.length - i / (64 / b) * (64 / b)) := by
        rw [List.length_take, List.length_drop]
      have hcomm2 : i / (64 / b) * (64 / b) = (64 / b) * (i / (64 / b)) := Nat.mul_comm _ _
      have hdm2 := Nat.div_add_mod i (64 / b)
      have hmodlt := Nat.mod_lt i (show 0 < 64 / b by omega)
      have hrg : i % (64 / b) < ((indices.drop (i / (64 / b) * (64 / b))).take (64 / b)).length := by
        rw [hglen]
        omega
      have hgbound : ∀ a ∈ (indices.drop (i / (64 / b) * (64 / b))).take (64 / b), a < 2 ^ b :=
        fun a ha => hlt a (List.mem_of_mem_drop (List.mem_of_mem_take ha))
      have hwlt : wordSum b ((indices.drop (i / (64 / b) * (64 / b))).take (64 / b)) < 2 ^ 64 := by
        have hs1 := wordSum_lt b _ hgbound
        have hs2 : 2 ^ (((indices.drop (i / (64 / b) * (64 / b))).take (64 / b)).length * b)
            ≤ 2 ^ 64 := by
          apply Nat.pow_le_pow_right (by norm_num)
          calc ((indices.drop (i / (64 / b) * (64 / b))).take (64 / b)).length * b
              ≤ 64 / b * b := Nat.mul_le_mul_right b (by rw [hglen]; omega)
            _ ≤ 64 := hvb
        omega
      have hkb : i % (64 / b) * b + b ≤ 64 := by
        have hmm : (i % (64 / b) + 1) * b ≤ 64 / b * b :=
          Nat.mul_le_mul_right b (by omega)
        calc i % (64 / b) * b + b = (i % (64 / b) + 1) * b := by ring
          _ ≤ 64 / b * b := hmm
          _ ≤ 64 := hvb
      rw [int64Shr_and_mask _ _ _ hwlt hkb]
      rw [wordSum_getD b _ _ hgbound hrg]
      rw [List.getD_eq_getElem _ _ hrg]
      simp only [List.getElem_take, List.getElem_drop]
      congr 1
      omega

/-- C5: for every palette size (in the Go int range) and every index
sequence whose entries are below the palette size, unpacking the packed
words at the width derived from the palette size and the original count
returns the sequence; for a trivial palette the width is zero and the word
array is empty. -/
theorem c5_pack_unpack_roundtrip (paletteSize : Nat) (indices : List Nat)
    (hps : paletteSize < 2 ^ 63)
    (hidx : ∀ x ∈ indices, x < paletteSize) :
    decodeIndices (encodeIndices indices (calculateBitsPerBlock paletteSize))
      (calculateBitsPerBlock paletteSize) indices.length = indices
    ∧ (paletteSize ≤ 1 →
        calculateBitsPerBlock paletteSize = 0
        ∧ encodeIndices indices (calculateBitsPerBlock paletteSize) = []
        ∧ ∀ x ∈ indices, x = 0) := by
  by_cases htriv : paletteSize ≤ 1
  · have hb : calculateBitsPerBlock paletteSize = 0 := by
      rw [calculateBitsPerBlock, if_pos htriv]
    have henc : encodeIndices indices 0 = [] := by
      rw [encodeIndices, if_pos (Or.inl rfl)]
    have hzero : ∀ x ∈ indices, x = 0 := by
      intro x hx
      have := hidx x hx
      omega
    refine ⟨?_, fun _ => ⟨hb, by rw [hb]; exact henc, hzero⟩⟩
    rw [hb, henc, decodeIndices, if_pos (Or.inl rfl)]
    symm
    rw [List.eq_replicate_iff]
    exact ⟨rfl, hzero⟩
  · have hps1 : 1 < paletteSize := by omega
    have hbval : calculateBitsPerBlock paletteSize = bitsLen (paletteSize - 1) := by
      rw [calculateBitsPerBlock, if_neg htriv]
    have hb1 : 1 ≤ calculateBitsPerBlock paletteSize := by
      rw [hbval, bitsLen, show (64 : Nat) = 63 + 1 from rfl, bitsLenAux,
        if_neg (by omega)]
      omega
    have hb63 : calculateBitsPerBlock paletteSize ≤ 63 := by
      rw [hbval]
      exact bitsLenAux_le 64 _ 63 (by omega)
    have hlt2b : ∀ x ∈ indices, x < 2 ^ calculateBitsPerBlock paletteSize := by
      intro x hx
      have h1 := hidx x hx
      have h2 : paletteSize - 1 < 2 ^ calculateBitsPerBlock paletteSize := by
        rw [hbval]
        exact bitsLenAux_lt 64 _ (by omega)
      omega
    exact ⟨decodeIndices_encodeIndices _ indices hb1 hb63 hlt2b,
      fun hcontr => absurd hcontr htriv⟩

/-- C5 witness: the round-trip at palette size 3 and the index sequence
0, 1, 2, 2, 1. -/
theorem c5_witness :
    decodeIndices (encodeIndices [0, 1, 2, 2, 1] (calculateBitsPerBlock 3))
      (calculateBitsPerBlock 3) ([0, 1, 2, 2, 1] : List Nat).length = [0, 1, 2, 2, 1]
    ∧ (3 ≤ 1 →
        calculateBitsPerBlock 3 = 0
        ∧ encodeIndices [0, 1, 2, 2, 1] (calculateBitsPerBlock 3) = []
        ∧ ∀ x ∈ ([0, 1, 2, 2, 1] : List Nat), x = 0) :=
  c5_pack_unpack_roundtrip 3 [0, 1, 2, 2, 1] (by norm_num) (by decide)
